import Mathlib

/-!
A shallow embedding of the core of `disk_hammer.c`: the startup file plan,
the alignment resolver, the buffer fill, the iovec descriptor planner, the
rotating write-cycle engine with its vectored-write sizing and incomplete
write reconciliation, and the `cksum`-compatible CRC helper.  Machine
integers are modelled as `Nat` with explicit reductions mod `2 ^ 64` where
the C code performs `size_t` arithmetic that could wrap.
-/

namespace DiskHammer

/-- Platform ceiling on the number of iovec descriptors accepted by one
`writev` call (`IOV_MAX`, 1024 on Linux). -/
def IOV_MAX : Nat := 1024

/-- Platform ceiling on the byte count of one write call (`SSIZE_MAX`,
the largest value of the signed 64-bit `ssize_t`). -/
def SSIZE_MAX : Nat := 2 ^ 63 - 1

/-- Modulus of `size_t` / `uint64_t` arithmetic. -/
def SIZE_MOD : Nat := 2 ^ 64

/-- `struct dh_opts`: the option values produced by command-line parsing. -/
structure DhOpts where
  chunk_size : Nat
  chunk_count : Nat
  dry_run : Bool
  verbose : Bool
deriving Repr, DecidableEq

/-- The defaults installed in `tmp_opts` at the top of `parse_command_line`
(`DEFAULT_CHUNK_SIZE` 4096, `DEFAULT_CHUNK_COUNT` 2). -/
def default_dh_opts : DhOpts :=
  { chunk_size := 4096, chunk_count := 2, dry_run := false, verbose := false }

/-- The `case 's'` branch of `parse_command_line` (source lines 258-264):
`chunk_size` is assigned the parsed value, then the guard that reports
"chunk size cannot be zero" tests `tmp_opts.chunk_count`, not the field
just assigned.  Returns the updated options and whether an error was
reported. -/
def handle_size_option (tmp : DhOpts) (v : Nat) : DhOpts × Bool :=
  ({ tmp with chunk_size := v }, tmp.chunk_count == 0)

/-- The `case 'c'` branch of `parse_command_line` (source lines 246-252):
`chunk_count` is assigned and the zero check tests the assigned value. -/
def handle_count_option (tmp : DhOpts) (v : Nat) : DhOpts × Bool :=
  ({ tmp with chunk_count := v }, v == 0)

/-- `file_chunks = file_size / opts.chunk_size` (source line 413). -/
def file_chunks (file_size chunk_size : Nat) : Nat := file_size / chunk_size

/-- The adjusted `file_size = file_chunks * opts.chunk_size`
(source line 415). -/
def effective_file_size (file_size chunk_size : Nat) : Nat :=
  file_chunks file_size chunk_size * chunk_size

/-- Outcome of one `pathconf(path, _PC_REC_XFER_ALIGN)` call, an external
libc query: a reported value, -1 with `errno` left unchanged (POSIX: no
alignment requirement), or -1 with `errno` set to an error code. -/
inductive PathconfResult where
  | val (n : Nat)
  | noLimit
  | err (errno : Nat)
deriving Repr, DecidableEq

/-- The alignment resolver, source lines 437-464.  `errno` is cleared, the
target path is queried; `-1 && !errno` is fatal (`perror("pathconf")`,
exit); `-1` with `errno` set retries on the containing directory (or `"."`);
a retry result of -1, for any reason, falls back to the 4096 default.
`first` is the query on the target path, `second` the directory query. -/
def resolve_alignment (first second : PathconfResult) : Except String Nat :=
  match first with
  | .val n => .ok n
  | .noLimit => .error "pathconf"
  | .err _ =>
    match second with
    | .val n => .ok n
    | _ => .ok 4096

/-- The validated startup state reaching buffer allocation. -/
structure Plan where
  file_chunks : Nat
  file_size : Nat
  alignment : Nat
  buffer_size : Nat
deriving Repr, DecidableEq

/-- The startup sequence of `main` between argument parsing and the buffer
fill, in source order: file-size adjustment and zero-size rejection (lines
412-419), alignment resolution (437-464), alignment validation (467-470)
and buffer sizing `chunk_size + (chunk_count-1)*alignment` (line 473). -/
def main_setup (requested_size chunk_size chunk_count : Nat)
    (first second : PathconfResult) : Except String Plan :=
  let fc := file_chunks requested_size chunk_size
  let fs := effective_file_size requested_size chunk_size
  if fs = 0 then
    .error "error: requested file size is smaller than chunk size"
  else
    match resolve_alignment first second with
    | .error e => .error e
    | .ok al =>
      if al > chunk_size then
        .error "error: alignment requirement is greater than chunk size"
      else
        .ok { file_chunks := fc, file_size := fs, alignment := al,
              buffer_size := chunk_size + (chunk_count - 1) * al }

/-- The buffer fill, source lines 486-489: `buffer[i] = random() % 0xff`.
The libc `random()` stream is modelled as an arbitrary sequence `rand`;
the byte stored at index `i` is its value reduced mod `0xff = 255`. -/
def fill_byte (rand : Nat → Nat) (i : Nat) : Nat := rand i % 0xff

/-- Byte `j` of chunk `k`: chunk `k` occupies buffer offset `k * alignment`
(checksum call line 494, descriptor construction line 515), and the buffer
is never written again after the fill. -/
def chunk_byte (rand : Nat → Nat) (alignment k j : Nat) : Nat :=
  fill_byte rand (k * alignment + j)

/-- The iovec array, source lines 507-517: `file_chunks + (chunk_count-1)`
entries, entry `i` holding base `buffer + (i % chunk_count) * alignment`
and length `chunk_size`.  A descriptor is the pair (buffer offset, length). -/
def iovs (fc chunk_count alignment chunk_size : Nat) : List (Nat × Nat) :=
  (List.range (fc + (chunk_count - 1))).map
    (fun i => ((i % chunk_count) * alignment, chunk_size))

/-- The chunk referenced by descriptor `i` (source line 515). -/
def iov_chunk (chunk_count i : Nat) : Nat := i % chunk_count

/-- The rotated start offset of iteration `i`, source line 549:
`piov = &iovs[i % opts.chunk_count]`. -/
def start_offset (i chunk_count : Nat) : Nat := i % chunk_count

/-- The chunk indices written by iteration `i`: the run of `fc` descriptors
beginning at the rotated start offset (lines 549-550 with the descriptor
layout of line 515). -/
def written_chunks (chunk_count fc i : Nat) : List Nat :=
  (List.range fc).map
    (fun k => iov_chunk chunk_count (start_offset i chunk_count + k))

/-- Descriptor count for one `writev` call, source lines 551-562: clamp the
remaining count to `IOV_MAX`, then if the resulting byte total (a `size_t`
product, hence reduced mod `2 ^ 64`) exceeds `SSIZE_MAX`, drop to
`SSIZE_MAX / chunk_size` descriptors. -/
def iovs_to_write (iovs_remaining chunk_size : Nat) : Nat :=
  let n := if iovs_remaining > IOV_MAX then IOV_MAX else iovs_remaining
  if n * chunk_size % SIZE_MOD > SSIZE_MAX then SSIZE_MAX / chunk_size else n

/-- The drain loop of one iteration (source lines 551-603) in the case
where every `writev` call completes fully: each pass advances by
`iovs_to_write` descriptors until none remain.  `fuel` bounds the number
of passes; the result is the number of descriptors still unwritten. -/
def drain_loop (fuel iovs_remaining chunk_size : Nat) : Nat :=
  match fuel with
  | 0 => iovs_remaining
  | fuel + 1 =>
    if iovs_remaining = 0 then 0
    else drain_loop fuel (iovs_remaining - iovs_to_write iovs_remaining chunk_size) chunk_size

/-- The byte count requested by the corrective `writev` after an incomplete
write of `w` bytes: the unwritten remainder of the descriptor that was cut
short, `chunk_size - w % chunk_size` (the adjusted `iov_len` of source
lines 582-585). -/
def corrective_request (chunk_size w : Nat) : Nat := chunk_size - w % chunk_size

/-- One drain-loop step around an incomplete `writev`, source lines
564-598.  `n` descriptors of length `chunk_size` each were passed; the
first `writev` returned `w` bytes without error (`w ≤ n * chunk_size`).
When `w` falls short, the number of fully written descriptors is
`w / chunk_size` and the byte count from the cut-short descriptor is
`w % chunk_size`; if the latter is nonzero a corrective `writev` of the
remainder is issued, returning `w2` bytes, and the code declares
"double incomplete writes not supported" when `w2 < bytes_written_partial`
(line 589) - the comparison is against the bytes already written, not the
remainder requested.  The result is the descriptor count advanced past
(line 601's `iovs_to_write`) or the fatal diagnostic. -/
def reconcile_writev (chunk_size n w w2 : Nat) : Except String Nat :=
  if w < n * chunk_size then
    let full := w / chunk_size
    let cut := w % chunk_size
    if 0 < cut then
      if w2 < cut then .error "error: double incomplete writes not supported"
      else .ok (full + 1)
    else .ok full
  else .ok n

/-- Open flags of the write cycle. -/
structure OpenFlags where
  wronly : Bool
  creat : Bool
  direct : Bool
  trunc : Bool
deriving Repr, DecidableEq

/-- `oflags = O_WRONLY | O_CREAT | O_DIRECT` (source line 519): creation
requested, no truncation flag. -/
def dh_oflags : OpenFlags :=
  { wronly := true, creat := true, direct := true, trunc := false }

/-- POSIX `open` semantics for the file length: an absent file (`none`) is
created empty when `O_CREAT` is set; an existing file keeps its length
unless `O_TRUNC` empties it. -/
def open_length (f : OpenFlags) (prior : Option Nat) : Option Nat :=
  match prior with
  | none => if f.creat then some 0 else none
  | some len => some (if f.trunc then 0 else len)

/-- File length after one successful iteration (source lines 523-609):
open with `dh_oflags`, write `file_size` bytes sequentially from offset 0,
close.  Sequential writes from offset 0 leave length
`max (length at open) file_size`. -/
def iteration_file_length (prior : Option Nat) (file_size : Nat) : Option Nat :=
  match open_length dh_oflags prior with
  | none => none
  | some len0 => some (max len0 file_size)

/-! ## Checksum: `zlib_cksum` and the `cksum` utility -/

/-- Bit reversal of the low `w` bits of `n`: what the `BITREV8` and
`BITREV32` macros of the source compute for `w = 8` and `w = 32`. -/
def bitrev (w n : Nat) : Nat :=
  match w with
  | 0 => 0
  | w + 1 => 2 ^ w * (n % 2) + bitrev w (n / 2)

/-- One bit step of zlib's reflected CRC-32: shift right, conditionally
xor the reflected generator 0xEDB88320 (the bit reversal of the `cksum`
polynomial 0x04C11DB7). -/
def crcBitR (t : Nat) : Nat :=
  (t / 2) ^^^ (if t % 2 = 1 then 0xEDB88320 else 0)

/-- One data byte of zlib's CRC-32 update. -/
def crcByteR (t b : Nat) : Nat := crcBitR^[8] (t ^^^ b)

/-- zlib's `crc32(crc, buf, len)`, the external library routine the source
calls one byte at a time: complement the accumulator, run the reflected
CRC over the bytes, complement again. -/
def crc32 (crc : Nat) (buf : List Nat) : Nat :=
  (buf.foldl crcByteR (crc ^^^ 0xFFFFFFFF)) ^^^ 0xFFFFFFFF

/-- The length suffix of the `cksum` algorithm and of the source's
`for(; len; len >>= 8)` loop: the bytes of `len`, least significant
first, stopping once the residue is zero (trailing zero bytes omitted). -/
def lenBytes : Nat → List Nat
  | 0 => []
  | n + 1 => ((n + 1) % 256) :: lenBytes ((n + 1) / 256)
decreasing_by exact Nat.div_lt_self (Nat.succ_pos _) (by decide)

/-- `zlib_cksum` (source lines 321-361): bit-reverse the incoming
accumulator, feed every data byte bit-reversed to zlib's `crc32`, feed
the length bytes (LSB first, trailing zeros omitted) bit-reversed, and
bit-reverse the final accumulator.  `main` calls it with `cksum = -1`,
i.e. 0xFFFFFFFF, and `len` equal to the byte count of `buf`. -/
def zlib_cksum (cksum : Nat) (buf : List Nat) : Nat :=
  let c0 := bitrev 32 cksum
  let c1 := buf.foldl (fun acc b => crc32 acc [bitrev 8 b]) c0
  let c2 := (lenBytes buf.length).foldl (fun acc b => crc32 acc [bitrev 8 b]) c1
  bitrev 32 c2

/-- One bit step of the forward (unreflected) CRC-32 used by the POSIX
`cksum` utility, generator polynomial 0x04C11DB7. -/
def crcBitF (u : Nat) : Nat :=
  ((2 * u) % 2 ^ 32) ^^^ (if u.testBit 31 then 0x04C11DB7 else 0)

/-- One data byte of the forward `cksum` CRC: the byte enters at the top
of the 32-bit accumulator. -/
def crcByteF (u b : Nat) : Nat := crcBitF^[8] (u ^^^ 2 ^ 24 * b)

/-- Modelled from the spec: the value the external `cksum` utility prints
for a byte sequence, the contractual reference of section 6 - a forward
CRC-32 over the data followed by the byte length (LSB first, trailing
zero bytes omitted), started at zero and ones-complemented at the end. -/
def cksum_utility (buf : List Nat) : Nat :=
  ((buf ++ lenBytes buf.length).foldl crcByteF 0) ^^^ 0xFFFFFFFF

/-! ## Helper lemmas -/

lemma iovs_to_write_eq (rem cs : Nat) (hcs : 0 < cs)
    (hfit : rem * cs < SIZE_MOD) :
    iovs_to_write rem cs = min (min rem IOV_MAX) (SSIZE_MAX / cs) := by
  unfold iovs_to_write
  have hn : (if rem > IOV_MAX then IOV_MAX else rem) = min rem IOV_MAX := by
    rcases Nat.le_total rem IOV_MAX with h | h
    · simp [Nat.min_eq_left h, Nat.not_lt.mpr h]
    · rcases Nat.lt_or_ge IOV_MAX rem with h' | h'
      · simp [Nat.min_eq_right h, h']
      · simp [Nat.le_antisymm h h']
  rw [hn]
  have hle : min rem IOV_MAX * cs ≤ rem * cs :=
    Nat.mul_le_mul_right cs (Nat.min_le_left _ _)
  show (if min rem IOV_MAX * cs % SIZE_MOD > SSIZE_MAX then SSIZE_MAX / cs
    else min rem IOV_MAX) = min (min rem IOV_MAX) (SSIZE_MAX / cs)
  rw [Nat.mod_eq_of_lt (Nat.lt_of_le_of_lt hle hfit)]
  rcases Nat.lt_or_ge SSIZE_MAX (min rem IOV_MAX * cs) with hbig | hsmall
  · have hdivlt : SSIZE_MAX / cs < min rem IOV_MAX := by
      apply Nat.lt_of_mul_lt_mul_right (a := cs)
      exact Nat.lt_of_le_of_lt (Nat.div_mul_le_self SSIZE_MAX cs) hbig
    simp [hbig, Nat.min_eq_right (Nat.le_of_lt hdivlt)]
  · have hdivge : min rem IOV_MAX ≤ SSIZE_MAX / cs :=
      (Nat.le_div_iff_mul_le hcs).mpr hsmall
    simp [Nat.not_lt.mpr hsmall, Nat.min_eq_left hdivge]

lemma iovs_to_write_pos (rem cs : Nat) (hcs : 0 < cs) (hrem : 0 < rem)
    (hmax : cs ≤ SSIZE_MAX) (hfit : rem * cs < SIZE_MOD) :
    0 < iovs_to_write rem cs := by
  rw [iovs_to_write_eq rem cs hcs hfit]
  have h1 : 0 < min rem IOV_MAX := by
    have : (0 : Nat) < IOV_MAX := by decide
    exact Nat.lt_min.mpr ⟨hrem, this⟩
  have h2 : 0 < SSIZE_MAX / cs := Nat.div_pos hmax hcs
  exact Nat.lt_min.mpr ⟨h1, h2⟩

lemma drain_loop_drains (fuel : Nat) : ∀ rem cs, 0 < cs → cs ≤ SSIZE_MAX →
    rem * cs < SIZE_MOD → rem ≤ fuel → drain_loop fuel rem cs = 0 := by
  induction fuel with
  | zero =>
    intro rem cs _ _ _ hle
    have : rem = 0 := Nat.le_zero.mp hle
    simp [drain_loop, this]
  | succ fuel ih =>
    intro rem cs hcs hmax hfit hle
    unfold drain_loop
    rcases Nat.eq_zero_or_pos rem with hz | hpos
    · simp [hz]
    · have hpos' := iovs_to_write_pos rem cs hcs hpos hmax hfit
      have hlt : rem - iovs_to_write rem cs < rem := Nat.sub_lt hpos hpos'
      have hfit' : (rem - iovs_to_write rem cs) * cs < SIZE_MOD :=
        Nat.lt_of_le_of_lt (Nat.mul_le_mul_right cs (Nat.le_of_lt hlt)) hfit
      simp only [Nat.pos_iff_ne_zero.mp hpos, if_neg (Nat.pos_iff_ne_zero.mp hpos)]
      exact ih _ cs hcs hmax hfit' (by omega)

lemma bitrev_lt (w : Nat) : ∀ n, bitrev w n < 2 ^ w := by
  induction w with
  | zero => intro n; simp [bitrev]
  | succ w ih =>
    intro n
    have h2 := ih (n / 2)
    rcases Nat.mod_two_eq_zero_or_one n with h | h <;>
      · rw [bitrev, Nat.pow_succ, h]
        omega

lemma bitrev_zero_val (w : Nat) : bitrev w 0 = 0 := by
  induction w with
  | zero => rfl
  | succ w ih => simp [bitrev, ih]

lemma testBit_bitrev (w : Nat) : ∀ n j,
    (bitrev w n).testBit j = if j < w then n.testBit (w - 1 - j) else false := by
  induction w with
  | zero => intro n j; simp [bitrev]
  | succ w ih =>
    intro n j
    rw [bitrev, Nat.testBit_mul_pow_two_add _ (bitrev_lt w (n / 2)) j]
    rcases Nat.lt_trichotomy j w with hj | hj | hj
    · rw [if_pos hj, ih, if_pos hj, if_pos (by omega), Nat.testBit_div_two]
      congr 1
      omega
    · rw [if_neg (by omega), if_pos (by omega), hj, Nat.sub_self]
      have h0 : w + 1 - 1 - w = 0 := by omega
      rw [h0, Nat.testBit_zero, Nat.testBit_zero, Nat.mod_mod_of_dvd n (dvd_refl 2)]
    · rw [if_neg (by omega), if_neg (by omega)]
      have h1 : (1 : Nat) ≤ j - w := by omega
      have h2 : n % 2 < 2 ^ (j - w) := by
        have : (2 : Nat) ^ 1 ≤ 2 ^ (j - w) := Nat.pow_le_pow_right (by decide) h1
        have hm : n % 2 < 2 := Nat.mod_lt n (by decide)
        omega
      exact Nat.testBit_lt_two_pow h2

lemma bitrev_xor (w a b : Nat) :
    bitrev w (a ^^^ b) = bitrev w a ^^^ bitrev w b := by
  apply Nat.eq_of_testBit_eq
  intro j
  rw [Nat.testBit_xor, testBit_bitrev, testBit_bitrev, testBit_bitrev]
  by_cases hj : j < w <;> simp [hj]

lemma bitrev_bitrev (w n : Nat) (hn : n < 2 ^ w) :
    bitrev w (bitrev w n) = n := by
  apply Nat.eq_of_testBit_eq
  intro j
  rw [testBit_bitrev, testBit_bitrev]
  by_cases hj : j < w
  · rw [if_pos hj, if_pos (by omega)]
    congr 1
    omega
  · rw [if_neg hj]
    have : n < 2 ^ j :=
      Nat.lt_of_lt_of_le hn (Nat.pow_le_pow_right (by decide) (by omega))
    exact (Nat.testBit_lt_two_pow this).symm

lemma bitrev_div_two (w n : Nat) (hn : n < 2 ^ w) :
    bitrev w (n / 2) = (2 * bitrev w n) % 2 ^ w := by
  apply Nat.eq_of_testBit_eq
  intro j
  have h2 : (2 : Nat) * bitrev w n = 2 ^ 1 * bitrev w n := by norm_num
  rw [testBit_bitrev, Nat.testBit_mod_two_pow, h2, Nat.testBit_mul_pow_two,
    testBit_bitrev]
  by_cases hj : j < w
  · by_cases h1 : 1 ≤ j
    · have e1 : w - 1 - j + 1 = w - j := by omega
      have e2 : w - 1 - (j - 1) = w - j := by omega
      have hj1 : j - 1 < w := by omega
      rw [if_pos hj, Nat.testBit_div_two, e1, if_pos hj1, e2]
      simp [hj, h1]
    · have hj0 : j = 0 := by omega
      subst hj0
      rw [if_pos hj, Nat.testBit_div_two]
      have hw : w - 1 - 0 + 1 = w := by omega
      rw [hw, Nat.testBit_lt_two_pow hn]
      simp
  · rw [if_neg hj]
    simp [hj]

lemma bitrev32_byte (b : Nat) (hb : b < 2 ^ 8) :
    bitrev 32 b = 2 ^ 24 * bitrev 8 b := by
  apply Nat.eq_of_testBit_eq
  intro j
  rw [testBit_bitrev, Nat.testBit_mul_pow_two, testBit_bitrev]
  by_cases h1 : j < 24
  · have hj32 : j < 32 := by omega
    have h8 : (8 : Nat) ≤ 31 - j := by omega
    have hb' : b < 2 ^ (31 - j) :=
      Nat.lt_of_lt_of_le hb (Nat.pow_le_pow_right (by decide) h8)
    have e : 32 - 1 - j = 31 - j := by omega
    rw [if_pos hj32, e, Nat.testBit_lt_two_pow hb']
    simp [h1]
  · by_cases h2 : j < 32
    · have e : 32 - 1 - j = 8 - 1 - (j - 24) := by omega
      have h3 : j - 24 < 8 := by omega
      have h4 : 24 ≤ j := by omega
      rw [if_pos h2, if_pos h3, e]
      simp [h4]
    · have h3 : ¬ (j - 24 < 8) := by omega
      rw [if_neg h2, if_neg h3]
      simp

lemma bitrev32_poly : bitrev 32 0xEDB88320 = 0x04C11DB7 := by decide

lemma bitrev32_ones : bitrev 32 0xFFFFFFFF = 0xFFFFFFFF := by decide

lemma crcBitR_lt (t : Nat) (ht : t < 2 ^ 32) : crcBitR t < 2 ^ 32 := by
  unfold crcBitR
  apply Nat.xor_lt_two_pow
  · exact Nat.lt_of_le_of_lt (Nat.div_le_self t 2) ht
  · split <;> decide

lemma crcIterR_lt (k : Nat) : ∀ t, t < 2 ^ 32 → crcBitR^[k] t < 2 ^ 32 := by
  induction k with
  | zero => intro t ht; exact ht
  | succ k ih =>
    intro t ht
    rw [Function.iterate_succ_apply]
    exact ih _ (crcBitR_lt t ht)

lemma crcByteR_lt (t b : Nat) (ht : t < 2 ^ 32) (hb : b < 2 ^ 32) :
    crcByteR t b < 2 ^ 32 :=
  crcIterR_lt 8 _ (Nat.xor_lt_two_pow ht hb)

lemma crcBit_conj (t : Nat) (ht : t < 2 ^ 32) :
    bitrev 32 (crcBitR t) = crcBitF (bitrev 32 t) := by
  have htb : (bitrev 32 t).testBit 31 = t.testBit 0 := by
    rw [testBit_bitrev]
    norm_num
  rw [crcBitR, crcBitF, bitrev_xor, bitrev_div_two 32 t ht, htb, Nat.testBit_zero]
  by_cases h : t % 2 = 1
  · simp [h, bitrev32_poly]
  · simp [h, bitrev_zero_val]

lemma crcIter_conj (k : Nat) : ∀ t, t < 2 ^ 32 →
    bitrev 32 (crcBitR^[k] t) = crcBitF^[k] (bitrev 32 t) := by
  induction k with
  | zero => intro t _; rfl
  | succ k ih =>
    intro t ht
    rw [Function.iterate_succ_apply, Function.iterate_succ_apply,
      ih _ (crcBitR_lt t ht), crcBit_conj t ht]

lemma crcByte_conj (t b : Nat) (ht : t < 2 ^ 32) (hb : b < 2 ^ 8) :
    bitrev 32 (crcByteR t (bitrev 8 b)) = crcByteF (bitrev 32 t) b := by
  unfold crcByteR crcByteF
  have h1 : bitrev 8 b < 2 ^ 8 := bitrev_lt 8 b
  have h2 : t ^^^ bitrev 8 b < 2 ^ 32 :=
    Nat.xor_lt_two_pow ht (Nat.lt_of_lt_of_le h1 (by norm_num))
  rw [crcIter_conj 8 _ h2, bitrev_xor, bitrev32_byte _ h1, bitrev_bitrev 8 b hb]

lemma foldl_conj (bs : List Nat) : (∀ b ∈ bs, b < 2 ^ 8) → ∀ t, t < 2 ^ 32 →
    bitrev 32 (bs.foldl (fun a b => crcByteR a (bitrev 8 b)) t) =
      bs.foldl crcByteF (bitrev 32 t) := by
  induction bs with
  | nil => intro _ t _; rfl
  | cons b bs ih =>
    intro hb t ht
    have hbb : b < 2 ^ 8 := hb b (List.mem_cons_self b bs)
    have hb' : ∀ x ∈ bs, x < 2 ^ 8 := fun x hx => hb x (List.mem_cons_of_mem b hx)
    have hrb : bitrev 8 b < 2 ^ 32 :=
      Nat.lt_of_lt_of_le (bitrev_lt 8 b) (by norm_num)
    have ht' : crcByteR t (bitrev 8 b) < 2 ^ 32 := crcByteR_lt t _ ht hrb
    rw [List.foldl_cons, List.foldl_cons, ih hb' _ ht', crcByte_conj t b ht hbb]

lemma crc32_fold (bs : List Nat) : ∀ t,
    bs.foldl (fun acc b => crc32 acc [bitrev 8 b]) t =
      (bs.foldl (fun a b => crcByteR a (bitrev 8 b)) (t ^^^ 0xFFFFFFFF)) ^^^
        0xFFFFFFFF := by
  induction bs with
  | nil =>
    intro t
    rw [List.foldl_nil, List.foldl_nil, Nat.xor_assoc, Nat.xor_self, Nat.xor_zero]
  | cons b bs ih =>
    intro t
    have hstep : crc32 t [bitrev 8 b] ^^^ 0xFFFFFFFF =
        crcByteR (t ^^^ 0xFFFFFFFF) (bitrev 8 b) := by
      rw [crc32, List.foldl_cons, List.foldl_nil, Nat.xor_assoc, Nat.xor_self,
        Nat.xor_zero]
    rw [List.foldl_cons, List.foldl_cons, ih, hstep]

lemma lenBytes_lt : ∀ n, ∀ b ∈ lenBytes n, b < 2 ^ 8 := by
  intro n
  induction n using Nat.strong_induction_on with
  | _ n ih =>
    match n with
    | 0 => intro b hb; simp [lenBytes] at hb
    | m + 1 =>
      intro b hb
      simp only [lenBytes] at hb
      rcases List.mem_cons.mp hb with h | h
      · rw [h]
        exact Nat.lt_of_lt_of_le (Nat.mod_lt _ (by decide)) (by norm_num)
      · exact ih ((m + 1) / 256) (Nat.div_lt_self (Nat.succ_pos m) (by decide)) b h


/-! ## Claims -/

/-- C2: for every drain-loop step, the descriptor count passed to one
vectored write is the largest count not exceeding the remaining
descriptors, not exceeding `IOV_MAX`, and whose byte total does not exceed
`SSIZE_MAX`; and the loop repeats such calls until no descriptors remain
in the run. -/
theorem c2_writev_call_sizing (rem cs : Nat) (hcs : 0 < cs)
    (hfit : rem * cs < SIZE_MOD) :
    (iovs_to_write rem cs ≤ rem ∧ iovs_to_write rem cs ≤ IOV_MAX ∧
      iovs_to_write rem cs * cs ≤ SSIZE_MAX) ∧
    (∀ m, m ≤ rem → m ≤ IOV_MAX → m * cs ≤ SSIZE_MAX →
      m ≤ iovs_to_write rem cs) ∧
    (cs ≤ SSIZE_MAX → drain_loop rem rem cs = 0) := by
  rw [iovs_to_write_eq rem cs hcs hfit]
  refine ⟨⟨?_, ?_, ?_⟩, ?_, ?_⟩
  · exact Nat.le_trans (Nat.min_le_left _ _) (Nat.min_le_left _ _)
  · exact Nat.le_trans (Nat.min_le_left _ _) (Nat.min_le_right _ _)
  · have h := Nat.min_le_right (min rem IOV_MAX) (SSIZE_MAX / cs)
    exact Nat.le_trans (Nat.mul_le_mul_right cs h) (Nat.div_mul_le_self _ _)
  · intro m h1 h2 h3
    have hm : m ≤ SSIZE_MAX / cs := (Nat.le_div_iff_mul_le hcs).mpr h3
    exact Nat.le_min.mpr ⟨Nat.le_min.mpr ⟨h1, h2⟩, hm⟩
  · intro hmax
    exact drain_loop_drains rem rem cs hcs hmax hfit (Nat.le_refl rem)

theorem c2_writev_call_sizing_witness :
    0 < 4096 ∧ 3000 * 4096 < SIZE_MOD ∧ drain_loop 3000 3000 4096 = 0 :=
  ⟨by decide, by decide,
    (c2_writev_call_sizing 3000 4096 (by decide) (by decide)).2.2 (by decide)⟩

/-- C3: with chunk count `C ≥ 1` and alignment at most the chunk size, the
descriptor sequence has exactly `file_chunks + (C-1)` entries, entry `i`
points at buffer offset `(i % C) * alignment` with length `chunk_size`,
and every contiguous run of `file_chunks` entries starting at `s < C`
references chunks `(s + k) % C` in order. -/
theorem c3_descriptor_sequence (fc C al cs : Nat) (hC : 0 < C)
    (hal : al ≤ cs) :
    (iovs fc C al cs).length = fc + (C - 1) ∧
    (∀ i, i < fc + (C - 1) →
      (iovs fc C al cs).get? i = some ((i % C) * al, cs)) ∧
    (∀ s k, s < C → k < fc →
      (iovs fc C al cs).get? (s + k) = some (((s + k) % C) * al, cs)) := by
  refine ⟨by simp [iovs], ?_, ?_⟩
  · intro i hi
    rw [iovs, List.get?_map, List.get?_range hi]
    rfl
  · intro s k hs hk
    have hi : s + k < fc + (C - 1) := by omega
    rw [iovs, List.get?_map, List.get?_range hi]
    rfl

theorem c3_descriptor_sequence_witness :
    0 < 2 ∧ (4096 : Nat) ≤ 4096 ∧ (iovs 2 2 4096 4096).length = 2 + (2 - 1) :=
  ⟨by decide, by decide, (c3_descriptor_sequence 2 2 4096 4096 (by decide) (by decide)).1⟩

/-- C4: the effective file length is the largest multiple of the chunk
size not exceeding the requested length, and a zero effective length is
rejected with an error before the alignment query and buffer allocation
(the setup result is the same error for every pathconf outcome). -/
theorem c4_effective_length (requested cs : Nat) (hcs : 0 < cs) :
    effective_file_size requested cs ≤ requested ∧
    cs ∣ effective_file_size requested cs ∧
    (∀ m, cs ∣ m → m ≤ requested → m ≤ effective_file_size requested cs) ∧
    (effective_file_size requested cs = 0 →
      ∀ chunk_count first second,
        main_setup requested cs chunk_count first second =
          .error "error: requested file size is smaller than chunk size") := by
  refine ⟨Nat.div_mul_le_self requested cs, Dvd.intro_left _ rfl, ?_, ?_⟩
  · intro m hdvd hle
    rcases hdvd with ⟨t, rfl⟩
    have ht : t ≤ requested / cs := by
      rw [Nat.le_div_iff_mul_le hcs]
      exact Nat.le_trans (Nat.le_of_eq (Nat.mul_comm t cs)) hle
    calc cs * t = t * cs := Nat.mul_comm cs t
    _ ≤ requested / cs * cs := Nat.mul_le_mul_right cs ht
    _ = effective_file_size requested cs := rfl
  · intro hzero chunk_count first second
    simp [main_setup, hzero]

theorem c4_effective_length_witness :
    0 < 4096 ∧ effective_file_size 10000 4096 ≤ 10000 :=
  ⟨by decide, (c4_effective_length 10000 4096 (by decide)).1⟩

/-- C5: iteration `i` starts the file at descriptor offset `i % C`, so its
chunk sequence is `(i + k) % C` and depends only on `i % C`; with three
iterations and two chunks the files start with chunks 0, 1, 0. -/
theorem c5_rotating_start :
    (∀ C fc i, 0 < C →
      written_chunks C fc i = (List.range fc).map (fun k => (i + k) % C) ∧
      (∀ j, i % C = j % C → written_chunks C fc i = written_chunks C fc j) ∧
      (0 < fc → (written_chunks C fc i).head? = some (i % C))) ∧
    (List.range 3).map (fun i => start_offset i 2) = [0, 1, 0] := by
  refine ⟨?_, by decide⟩
  intro C fc i hC
  refine ⟨?_, ?_, ?_⟩
  · simp [written_chunks, iov_chunk, start_offset, Nat.mod_add_mod]
  · intro j hij
    unfold written_chunks start_offset
    rw [hij]
  · intro hfc
    rcases Nat.exists_eq_succ_of_ne_zero (Nat.pos_iff_ne_zero.mp hfc) with ⟨m, rfl⟩
    rw [written_chunks, List.range_succ_eq_map, List.map_cons, List.head?_cons]
    simp [iov_chunk, start_offset, Nat.mod_eq_of_lt (Nat.mod_lt i hC)]

theorem c5_rotating_start_witness : written_chunks 2 4 3 = [1, 0, 1, 0] :=
  ((c5_rotating_start.1 2 4 3 (by decide)).1).trans (by decide)

/-- C6 (evaluation at the failing input): when `pathconf` on the target
path reports no alignment requirement (-1 with `errno` unchanged), the
resolver aborts fatally instead of falling back to the 4096 default; and
when the path query fails with an error other than "not found" (e.g.
`EACCES` = 13), the resolver silently retries the directory instead of
aborting. -/
theorem c6_resolver_divergence :
    (∀ second, resolve_alignment .noLimit second = .error "pathconf") ∧
    (∀ n, resolve_alignment (.err 13) (.val n) = .ok n) :=
  ⟨fun _ => rfl, fun _ => rfl⟩

/-- C7 (evaluation at the failing input): parsing `-s 0` with the default
options reports no error (the guard reads `chunk_count`) and leaves the
zero chunk size in place, while `-c 0` is correctly rejected. -/
theorem c7_zero_chunk_size_accepted :
    (handle_size_option default_dh_opts 0).2 = false ∧
    (handle_size_option default_dh_opts 0).1.chunk_size = 0 ∧
    (handle_count_option default_dh_opts 0).2 = true :=
  ⟨rfl, rfl, rfl⟩

/-- C8 (counterexample): a target file of prior length 8192 written with
an effective length of 4096 does not end the iteration at length 4096 -
the open flags carry no truncation, so the trailing bytes survive. -/
theorem c8_counterexample :
    iteration_file_length (some 8192) 4096 ≠ some 4096 := by
  decide

/-- C8 (amended): after a successful iteration the target file exists and
its length is the maximum of its prior length and the effective length; it
equals the effective length exactly when the file was absent or not longer
than the effective length, the open flags requesting creation but no
truncation. -/
theorem c8_amended_file_length (prior : Option Nat) (file_size : Nat) :
    iteration_file_length prior file_size = some (max (prior.getD 0) file_size) ∧
    iteration_file_length none file_size = some file_size ∧
    (prior.getD 0 ≤ file_size →
      iteration_file_length prior file_size = some file_size) ∧
    dh_oflags.trunc = false ∧ dh_oflags.creat = true := by
  refine ⟨?_, ?_, ?_, rfl, rfl⟩
  · cases prior with
    | none => simp [iteration_file_length, open_length, dh_oflags]
    | some len => simp [iteration_file_length, open_length, dh_oflags]
  · simp [iteration_file_length, open_length, dh_oflags]
  · intro h
    cases prior with
    | none => simp [iteration_file_length, open_length, dh_oflags]
    | some len =>
      simp only [Option.getD] at h
      simp [iteration_file_length, open_length, dh_oflags, Nat.max_eq_right h]

theorem c8_amended_file_length_witness :
    iteration_file_length (some 100) 4096 = some 4096 :=
  (c8_amended_file_length (some 100) 4096).2.2.1 (by decide)

/-- C10: every buffer byte is a `random()` value reduced mod `0xff = 255`,
hence lies below 255; the byte value 0xff never occurs in the buffer nor
in any chunk window drawn from it. -/
theorem c10_no_ff_byte (rand : Nat → Nat) (i : Nat) :
    fill_byte rand i = rand i % 0xff ∧
    fill_byte rand i < 0xff ∧
    fill_byte rand i ≠ 0xff ∧
    (∀ al k j, chunk_byte rand al k j ≠ 0xff) := by
  refine ⟨rfl, Nat.mod_lt _ (by decide), ?_, ?_⟩
  · exact Nat.ne_of_lt (Nat.mod_lt _ (by decide))
  · intro al k j
    exact Nat.ne_of_lt (Nat.mod_lt _ (by decide))

/-- C1 (evaluation at the failing input): with a 4096-byte descriptor, a
first `writev` returning 3000 bytes leaves a 1096-byte remainder; the
corrective `writev` returns all 1096 requested bytes - no second
incomplete write occurred - yet the engine declares the fatal
"double incomplete writes not supported" because it compares the
corrective return against the 3000 bytes already written. -/
theorem c1_reconcile_fatal_on_complete_corrective :
    corrective_request 4096 3000 = 1096 ∧
    reconcile_writev 4096 1 3000 1096 =
      .error "error: double incomplete writes not supported" := by
  refine ⟨rfl, ?_⟩
  simp [reconcile_writev]

/-- C9: `zlib_cksum`, seeded with the all-ones accumulator exactly as
`main` calls it, computes for every byte sequence the same value as the
POSIX `cksum` utility: a forward CRC-32 with generator 0x04C11DB7 over
the data followed by the length bytes (LSB first, trailing zeros
omitted), complemented at the end.  The bit reflections of accumulator,
data bytes and length bytes around zlib's reflected CRC-32 implement
exactly that. -/
theorem c9_cksum_compatible (buf : List Nat) (hbuf : ∀ b ∈ buf, b < 2 ^ 8) :
    zlib_cksum 0xFFFFFFFF buf = cksum_utility buf := by
  have hall : ∀ b ∈ buf ++ lenBytes buf.length, b < 2 ^ 8 := by
    intro b hb
    rcases List.mem_append.mp hb with h | h
    · exact hbuf b h
    · exact lenBytes_lt buf.length b h
  simp only [zlib_cksum, cksum_utility]
  rw [bitrev32_ones, ← List.foldl_append, crc32_fold, Nat.xor_self, bitrev_xor,
    bitrev32_ones, foldl_conj _ hall 0 (by decide), bitrev_zero_val]

theorem c9_cksum_compatible_witness :
    (∀ b ∈ [7, 0, 255], b < 2 ^ 8) ∧
      zlib_cksum 0xFFFFFFFF [7, 0, 255] = cksum_utility [7, 0, 255] :=
  ⟨by decide, c9_cksum_compatible [7, 0, 255] (by decide)⟩

end DiskHammer
